import Mathlib

/-!
Shallow embedding of the prom_multi_proc metric registry (registry.go,
prom_multi_proc.go, main.go) and proofs of the specification claims.

Modelling conventions:
* Go float64 values never undergo arithmetic in the embedded code; they are
  carried as exact rationals (`Rat`), plus the special values produced by
  strconv.ParseFloat (`GoFloat`).
* Go maps with string keys are association lists with no duplicate keys;
  assignment is an upsert, delete removes the entry.
* The prometheus default registerer (an external library) is modelled by the
  set of fully-qualified metric names currently registered: Register fails
  exactly when a collector with the same name is present (the library
  signals AlreadyRegisteredError or a name collision in that case, and this
  program uses no const labels, so the name determines the outcome), and
  Unregister succeeds exactly when the collector is present.
* The md5 hex digest in MetricSpec.Hash is modelled by the digest input:
  md5 is a fixed deterministic function of its input, and the development
  only depends on the fingerprint being a function of the serialized fields.
-/

/-- Character class of the regexp bracket [a-z]. -/
def isLowerAlpha (c : Char) : Bool := 'a' ≤ c && c ≤ 'z'

/-- Character class of the regexp bracket [0-9a-z_]. -/
def isWordChar (c : Char) : Bool := isLowerAlpha c || ('0' ≤ c && c ≤ '9') || c == '_'

/-- Match of the anchored regexp of registry.go, metricRe = [a-z]+[0-9a-z_]+
with implicit anchors: the string splits into a nonempty run of lowercase
letters followed by a nonempty run of word characters. -/
def metricReMatch (s : String) : Bool :=
  let cs := s.toList
  (List.range cs.length).any fun k =>
    decide (0 < k) && (cs.take k).all isLowerAlpha && (cs.drop k).all isWordChar

/-- validateMetric of registry.go: error when the name does not match metricRe. -/
def validateMetric (name : String) : Except String Unit :=
  if metricReMatch name then Except.ok () else
    Except.error ("Metric name " ++ name ++ " is not valid")

/-- Special values and finite values of Go float64 as produced by
strconv.ParseFloat; finite values are carried exactly. -/
inductive GoFloat where
  | finite (q : Rat)
  | posInf
  | negInf
  | nan
deriving DecidableEq, Repr

/-- Numeric value of a run of decimal digit characters. -/
def digitsToNat (cs : List Char) : Nat :=
  cs.foldl (fun n c => n * 10 + (c.toNat - 48)) 0

/-- Decimal part of the strconv.ParseFloat grammar: optional sign, digits with
an optional fraction (at least one digit in mantissa overall), optional
exponent. The value is returned exactly as a rational. -/
def parseDecCore (cs : List Char) : Option Rat :=
  let signSplit : Bool × List Char :=
    match cs with
    | '+' :: r => (false, r)
    | '-' :: r => (true, r)
    | r => (false, r)
  let neg := signSplit.1
  let ipSplit := signSplit.2.span Char.isDigit
  let fpSplit : List Char × List Char :=
    match ipSplit.2 with
    | '.' :: r => r.span Char.isDigit
    | r => ([], r)
  if ipSplit.1.isEmpty && fpSplit.1.isEmpty then none
  else
    let mant : Nat := digitsToNat (ipSplit.1 ++ fpSplit.1)
    let expPart : Option Int :=
      match fpSplit.2 with
      | [] => some 0
      | e :: r =>
        if e == 'e' || e == 'E' then
          let esignSplit : Bool × List Char :=
            match r with
            | '+' :: r2 => (false, r2)
            | '-' :: r2 => (true, r2)
            | r2 => (false, r2)
          let edSplit := esignSplit.2.span Char.isDigit
          if edSplit.1.isEmpty || !edSplit.2.isEmpty then none
          else some (if esignSplit.1 then -(digitsToNat edSplit.1 : Int)
                     else (digitsToNat edSplit.1 : Int))
        else none
    match expPart with
    | none => none
    | some ex =>
      let mag : Rat := (mant : Rat) * (10 : Rat) ^ (ex - (fpSplit.1.length : Int))
      some (if neg then -mag else mag)

/-- Syntactic model of Go strconv.ParseFloat with bitSize 64: an optional
sign with a decimal mantissa and optional exponent, or the special values
inf, infinity and nan (case-insensitive). Finite results are kept as exact
rationals; float64 rounding, hexadecimal mantissas and digit-group
underscores are not modelled, and nothing proved below depends on the exact
accepted language or on numeric values of parses. -/
def parseFloatGo (s : String) : Option GoFloat :=
  let t := s.toList.map Char.toLower
  if t = "inf".toList ∨ t = "+inf".toList ∨ t = "infinity".toList ∨ t = "+infinity".toList then
    some GoFloat.posInf
  else if t = "-inf".toList ∨ t = "-infinity".toList then some GoFloat.negInf
  else if t = "nan".toList then some GoFloat.nan
  else (parseDecCore s.toList).map GoFloat.finite

/-- MetricSpec of prom_multi_proc.go: one declared collector. The objectives
field is the JSON map from quantile strings to float64 values. -/
structure MetricSpec where
  type : String
  name : String
  help : String
  labels : List String
  buckets : List Rat
  objectives : List (String × Rat)
deriving DecidableEq, Repr

/-- Rendering used for the %+v formatting of a string slice: elements
separated by spaces inside brackets. -/
def fmtStrSlice (l : List String) : String :=
  "[" ++ String.intercalate " " l ++ "]"

/-- Rendering of one rational for the %+v formatting; any injective
deterministic rendering models the Go float formatting for the digest. -/
def fmtRat (q : Rat) : String := toString q

/-- Rendering used for the %+v formatting of a float64 slice. -/
def fmtRatSlice (l : List Rat) : String :=
  "[" ++ String.intercalate " " (l.map fmtRat) ++ "]"

/-- Insertion into a key-sorted association list, using the string order. -/
def insertByKey (x : String × Rat) : List (String × Rat) → List (String × Rat)
  | [] => [x]
  | y :: ys =>
    match compare x.1 y.1 with
    | Ordering.gt => y :: insertByKey x ys
    | _ => x :: y :: ys

/-- Key-sort of an association list; Go fmt prints maps sorted by key. -/
def sortByKey (l : List (String × Rat)) : List (String × Rat) :=
  l.foldr insertByKey []

/-- Rendering used for the %+v formatting of a map from string to float64:
key-sorted key:value entries separated by spaces. -/
def fmtObjMap (l : List (String × Rat)) : String :=
  "map[" ++ String.intercalate " " ((sortByKey l).map (fun p => p.1 ++ ":" ++ fmtRat p.2)) ++ "]"

/-- Hash of prom_multi_proc.go (the content fingerprint): the md5 hex digest
of the concatenation of Type, Help and the %+v renderings of Labels, Buckets
and Objectives, modelled by the digest input itself. The Name field and no
other field enters the digest. -/
def MetricSpec.Hash (ms : MetricSpec) : String :=
  ms.type ++ ms.help ++ fmtStrSlice ms.labels ++ fmtRatSlice ms.buckets ++
    fmtObjMap ms.objectives

/-- Metric of prom_multi_proc.go: one incoming update event. -/
structure Metric where
  name : String
  labelValues : List String
  method : String
  value : Rat
deriving DecidableEq, Repr

/-- defaultBuckets of registry.go. -/
def defaultBuckets : List Rat :=
  [5/1000, 1/100, 25/1000, 5/100, 1/10, 25/100, 1/2, 1, 5/2, 5, 10]

/-- defaultObjectives of registry.go, keyed by the float64 values 0.5, 0.9
and 0.99. -/
def defaultObjectives : List (GoFloat × Rat) :=
  [(GoFloat.finite (1/2), 5/100), (GoFloat.finite (9/10), 1/100),
   (GoFloat.finite (99/100), 1/1000)]

/-- Collector instances produced by the prometheus constructors, recorded
with the options they were built from; the exposition surface identifies a
collector by its fully-qualified name. -/
inductive Collector where
  | counter (name help : String)
  | counterVec (name help : String) (labels : List String)
  | gauge (name help : String)
  | gaugeVec (name help : String) (labels : List String)
  | histogram (name help : String) (buckets : List Rat)
  | histogramVec (name help : String) (buckets : List Rat) (labels : List String)
  | summary (name help : String) (objectives : List (GoFloat × Rat))
  | summaryVec (name help : String) (objectives : List (GoFloat × Rat)) (labels : List String)
deriving DecidableEq, Repr

/-- Fully-qualified metric name of a collector. -/
def Collector.fqName : Collector → String
  | Collector.counter n _ => n
  | Collector.counterVec n _ _ => n
  | Collector.gauge n _ => n
  | Collector.gaugeVec n _ _ => n
  | Collector.histogram n _ _ => n
  | Collector.histogramVec n _ _ _ => n
  | Collector.summary n _ _ => n
  | Collector.summaryVec n _ _ _ => n

/-- MetricHandler: the runtime pairing of a spec and its collector. The Go
handler variants (CounterHandler and the seven others) each hold exactly
these two fields, exposed through the Spec and Collector methods. -/
structure MetricHandler where
  spec : MetricSpec
  collector : Collector
deriving DecidableEq, Repr

/-- Association-list lookup, the read of a Go map. -/
def lookupKey {κ α : Type} [DecidableEq κ] : List (κ × α) → κ → Option α
  | [], _ => none
  | (k, v) :: rest, n => if k = n then some v else lookupKey rest n

/-- Association-list removal, the delete of a Go map. -/
def eraseKey {κ α : Type} [DecidableEq κ] : List (κ × α) → κ → List (κ × α)
  | [], _ => []
  | (k, v) :: rest, n => if k = n then rest else (k, v) :: eraseKey rest n

/-- Association-list insert-or-replace, the assignment of a Go map. -/
def upsertKey {κ α : Type} [DecidableEq κ] : List (κ × α) → κ → α → List (κ × α)
  | [], n, v => [(n, v)]
  | (k, w) :: rest, n, v =>
    if k = n then (n, v) :: rest else (k, w) :: upsertKey rest n v

/-- validateLabels of registry.go: the outer index runs over all but the
last label, grammar-checking that label and comparing it against every
later label for duplicates. -/
def validateLabels : List String → Except String Unit
  | [] => Except.ok ()
  | [_] => Except.ok ()
  | x :: y :: rest =>
    match validateMetric x with
    | Except.error e => Except.error e
    | Except.ok _ =>
      if (y :: rest).contains x then Except.error ("Duplicate label found: " ++ x)
      else validateLabels (y :: rest)

/-- Loop body accumulation of validateObjectives: each key is parsed as a
float64 and the value stored under the parsed key; the first unparsable key
aborts with the strconv error. -/
def validateObjectivesAux (acc : List (GoFloat × Rat)) :
    List (String × Rat) → Except String (List (GoFloat × Rat))
  | [] => Except.ok acc
  | (k, v) :: rest =>
    match parseFloatGo k with
    | none => Except.error ("strconv.ParseFloat: parsing " ++ k ++ ": invalid syntax")
    | some f => validateObjectivesAux (upsertKey acc f v) rest

/-- validateObjectives of registry.go. -/
def validateObjectives (objectives : List (String × Rat)) :
    Except String (List (GoFloat × Rat)) :=
  validateObjectivesAux [] objectives

/-- buildHandler of registry.go: dispatch on the spec type, falling back to
default buckets and objectives, validating labels for the vector variants
and objectives for summaries. -/
def buildHandler (spec : MetricSpec) : Except String MetricHandler :=
  if spec.type = "counter" then
    if spec.labels.isEmpty then
      Except.ok ⟨spec, Collector.counter spec.name spec.help⟩
    else
      match validateLabels spec.labels with
      | Except.error e => Except.error e
      | Except.ok _ => Except.ok ⟨spec, Collector.counterVec spec.name spec.help spec.labels⟩
  else if spec.type = "gauge" then
    if spec.labels.isEmpty then
      Except.ok ⟨spec, Collector.gauge spec.name spec.help⟩
    else
      match validateLabels spec.labels with
      | Except.error e => Except.error e
      | Except.ok _ => Except.ok ⟨spec, Collector.gaugeVec spec.name spec.help spec.labels⟩
  else if spec.type = "histogram" then
    let buckets := if spec.buckets.length > 0 then spec.buckets else defaultBuckets
    if spec.labels.isEmpty then
      Except.ok ⟨spec, Collector.histogram spec.name spec.help buckets⟩
    else
      match validateLabels spec.labels with
      | Except.error e => Except.error e
      | Except.ok _ =>
        Except.ok ⟨spec, Collector.histogramVec spec.name spec.help buckets spec.labels⟩
  else if spec.type = "summary" then
    match (if spec.objectives.length > 0 then validateObjectives spec.objectives
           else Except.ok defaultObjectives) with
    | Except.error e => Except.error e
    | Except.ok objectives =>
      if spec.labels.isEmpty then
        Except.ok ⟨spec, Collector.summary spec.name spec.help objectives⟩
      else
        match validateLabels spec.labels with
        | Except.error e => Except.error e
        | Except.ok _ =>
          Except.ok ⟨spec, Collector.summaryVec spec.name spec.help objectives spec.labels⟩
  else Except.error ("Unknown metric " ++ spec.name ++ " is unknown type " ++ spec.type)

/-- Model of prometheus.Register on the default registerer: the set of
registered fully-qualified names; registration fails exactly when the name
is already present. -/
def promRegister (reg : List String) (name : String) : Except String (List String) :=
  if name ∈ reg then
    Except.error ("duplicate metrics collector registration attempted: " ++ name)
  else Except.ok (name :: reg)

/-- Model of prometheus.Unregister on the default registerer: reports
whether the collector was present and removes it. -/
def promUnregister (reg : List String) (name : String) : Bool × List String :=
  if name ∈ reg then (true, reg.erase name) else (false, reg)

/-- State of the ireg registry together with the exposition surface it
registers collectors with. -/
structure RegState where
  handlers : List (String × MetricHandler)
  prom : List String
deriving DecidableEq, Repr

/-- Shared tail of register in registry.go: register the collector with the
exposition surface and, only on success, store the handler in the map. -/
def registerStore (r : RegState) (name : String) (handler : MetricHandler) :
    RegState × Except String Unit :=
  match promRegister r.prom handler.collector.fqName with
  | Except.error e => (r, Except.error e)
  | Except.ok prom1 => (⟨upsertKey r.handlers name handler, prom1⟩, Except.ok ())

/-- register of registry.go. With an existing handler of equal fingerprint
it is a no-op; with a differing fingerprint it unregisters the old
collector, deletes the map entry and falls through to the shared tail with
the old handler variable unchanged; with no existing handler it builds a
handler from the spec and falls through with that. -/
def register (r : RegState) (spec : MetricSpec) : RegState × Except String Unit :=
  match validateMetric spec.name with
  | Except.error e => (r, Except.error e)
  | Except.ok _ =>
    match lookupKey r.handlers spec.name with
    | some handler =>
      if MetricSpec.Hash handler.spec = MetricSpec.Hash spec then (r, Except.ok ())
      else
        match promUnregister r.prom handler.collector.fqName with
        | (false, _) => (r, Except.error ("Failed to re-register " ++ spec.name))
        | (true, prom1) =>
          registerStore ⟨eraseKey r.handlers spec.name, prom1⟩ spec.name handler
    | none =>
      match buildHandler spec with
      | Except.error e => (r, Except.error e)
      | Except.ok handler => registerStore r spec.name handler

/-- unregister of registry.go: requires an existing handler; the map entry
is removed only when the exposition surface unregistration succeeds. -/
def unregister (r : RegState) (name : String) : RegState × Except String Unit :=
  match lookupKey r.handlers name with
  | none => (r, Except.error ("Unregister: metric " ++ name ++ " does not exist"))
  | some handler =>
    match promUnregister r.prom handler.collector.fqName with
    | (false, _) => (r, Except.error ("Failed to unregister " ++ name))
    | (true, prom1) => (⟨eraseKey r.handlers name, prom1⟩, Except.ok ())

/-- doNames of registry.go: the current keys of the handler map. -/
def doNames (r : RegState) : List String := r.handlers.map Prod.fst

/-- Modelled from the spec: sliceSubStr, the string-slice difference helper
used by Reload, is defined outside the provided sources; per the design it
keeps the previously-known names absent from the second list. -/
def sliceSubStr (a b : List String) : List String :=
  a.filter (fun s => decide (s ∉ b))

/-- Success flag of one logged reload item. -/
def exceptOk (e : Except String Unit) : Bool :=
  match e with
  | Except.ok _ => true
  | Except.error _ => false

/-- Registration loop of Reload in registry.go: every incoming spec is
attempted in order and the per-item outcome is logged. -/
def registerPhase (r : RegState) : List MetricSpec → RegState × List (String × Bool)
  | [] => (r, [])
  | spec :: rest =>
    let step := register r spec
    let next := registerPhase step.1 rest
    (next.1, (spec.name, exceptOk step.2) :: next.2)

/-- Unregistration loop of Reload in registry.go, with per-item outcomes. -/
def unregisterPhase (r : RegState) : List String → RegState × List (String × Bool)
  | [] => (r, [])
  | name :: rest =>
    let step := unregister r name
    let next := unregisterPhase step.1 rest
    (next.1, (name, exceptOk step.2) :: next.2)

/-- Names kept by the reload diff, the newNames slice of Reload: one entry
is appended per incoming spec before its registration is attempted, so the
slice holds every incoming name regardless of the registration outcome. -/
def reloadKeptNames (specs : List MetricSpec) : List String :=
  specs.map MetricSpec.name

/-- Per-item outcome log of one Reload call. -/
structure ReloadLog where
  regs : List (String × Bool)
  unregs : List (String × Bool)
deriving DecidableEq, Repr

/-- Reload of registry.go: snapshot the current names, attempt registration
of every incoming spec, then unregister every previously-known name absent
from the kept-name slice. Logged outcomes are returned. -/
def Reload (r : RegState) (specs : List MetricSpec) : RegState × ReloadLog :=
  let names := doNames r
  let phase1 := registerPhase r specs
  let unreg := sliceSubStr names (reloadKeptNames specs)
  let phase2 := unregisterPhase phase1.1 unreg
  (phase2.1, ⟨phase1.2, phase2.2⟩)

/-- Modelled from the spec: the per-handler update application (the handler
implementations behind the MetricHandler interface are not among the
provided sources). Per the design, the method must be legal for the
collector family and the label-value count must equal the label arity;
collector value changes happen inside the opaque collector. -/
def MetricHandler.handle (h : MetricHandler) (metric : Metric) : Except String Unit :=
  let methods : List String :=
    match h.collector with
    | Collector.counter _ _ => ["inc", "add"]
    | Collector.counterVec _ _ _ => ["inc", "add"]
    | Collector.gauge _ _ => ["set", "inc", "dec", "add", "sub", "set_to_current_time"]
    | Collector.gaugeVec _ _ _ => ["set", "inc", "dec", "add", "sub", "set_to_current_time"]
    | _ => ["observe"]
  let arity : Nat :=
    match h.collector with
    | Collector.counterVec _ _ ls => ls.length
    | Collector.gaugeVec _ _ ls => ls.length
    | Collector.histogramVec _ _ _ ls => ls.length
    | Collector.summaryVec _ _ _ ls => ls.length
    | _ => 0
  if ¬ (metric.method ∈ methods) then
    Except.error ("Unknown method " ++ metric.method)
  else if metric.labelValues.length ≠ arity then
    Except.error "label values length mismatch"
  else Except.ok ()

/-- doHandle of registry.go: look the metric name up and delegate. -/
def doHandle (r : RegState) (metric : Metric) : Except String Unit :=
  match lookupKey r.handlers metric.name with
  | none => Except.error ("Handle: metric " ++ metric.name ++ " does not exist")
  | some handler => handler.handle metric

/-- Handle of registry.go: delegation never mutates the handler map or the
exposition surface, so the state component is returned unchanged. -/
def Handle (r : RegState) (metric : Metric) : RegState × Except String Unit :=
  (r, doHandle r metric)

/-- Index loop of DataParser forwarding one decoded batch: element i is sent
for each i below the batch length, in increasing order. -/
def forwardBatch (metrics : List Metric) : List Metric :=
  (List.range metrics.length).filterMap (fun i => metrics.get? i)

/-- DataParser of prom_multi_proc.go over a queue of raw payloads, each
payload represented by its decode outcome (the JSON decoder is library
code): a failed decode counts one error and forwards nothing, a successful
decode forwards each update of the batch. Returns the forwarded update
sequence and the error count. -/
def DataParser : List (Except String (List Metric)) → List Metric × Nat
  | [] => ([], 0)
  | Except.error _ :: rest =>
    let next := DataParser rest
    (next.1, next.2 + 1)
  | Except.ok metrics :: rest =>
    let next := DataParser rest
    (forwardBatch metrics ++ next.1, next.2)

/-- Initial state: the registry starts empty and main registers the
pmp_metrics_total self-observability counter with the exposition surface
before any reload. -/
def initState : RegState := ⟨[], ["pmp_metrics_total"]⟩

/-- Invariant claimed for the registry: every stored key equals the stored
handler's own spec name, and no two entries share a name. -/
def RegInvariant (r : RegState) : Prop :=
  (∀ p ∈ r.handlers, (Prod.snd p).spec.name = p.1) ∧
    (r.handlers.map Prod.fst).Nodup

/-- Full reachability invariant of the registry state: distinct keys, a
duplicate-free exposition surface, and every entry consistent: its key is
the handler's spec name and its collector's name, the key is grammatical,
and the collector is registered with the exposition surface. -/
def FullInv (r : RegState) : Prop :=
  (r.handlers.map Prod.fst).Nodup ∧ r.prom.Nodup ∧
    ∀ p ∈ r.handlers,
      (Prod.snd p).spec.name = p.1 ∧
      (Prod.snd p).collector.fqName = p.1 ∧
      metricReMatch p.1 = true ∧ p.1 ∈ r.prom

/-- Conversion of parsed objectives described by the design: each entry's
key parsed as a float64, the value stored under the parsed key. -/
def convertObjectives (objectives : List (String × Rat)) : List (GoFloat × Rat) :=
  objectives.foldl
    (fun acc p =>
      match parseFloatGo p.1 with
      | some f => upsertKey acc f p.2
      | none => acc) []

/-- Example counter spec named ab with help text one. -/
def specAbOne : MetricSpec := ⟨"counter", "ab", "help one", [], [], []⟩

/-- Example counter spec named ab with help text two: same name as
specAbOne, different content fingerprint. -/
def specAbTwo : MetricSpec := ⟨"counter", "ab", "help two", [], [], []⟩

/-- Example spec of an unknown collector type, whose registration errors. -/
def specBogus : MetricSpec := ⟨"bogus", "ab", "", [], [], []⟩

/-- Example vector spec whose final label violates the name grammar. -/
def specBadLastLabel : MetricSpec := ⟨"counter", "cd", "", ["ab", "NO"], [], []⟩

/-- Example vector spec with a duplicated label. -/
def specDupLabels : MetricSpec := ⟨"counter", "ef", "", ["ab", "ab"], [], []⟩

/-- Example spec agreeing with specAbOne on every field but the name. -/
def specZz : MetricSpec := ⟨"counter", "zz", "help one", [], [], []⟩

/-- Example summary spec with an unparsable objectives key. -/
def specBadObjectives : MetricSpec := ⟨"summary", "gh", "", [], [], [("bad", 2)]⟩

/-- Example state where a handler is stored but its collector is absent
from the exposition surface, so unregistration fails. -/
def stuckState : RegState :=
  ⟨[("ab", ⟨specAbOne, Collector.counter "ab" "help one"⟩)], []⟩

/-! Association-list lemmas used throughout the registry proofs. -/

theorem lookupKey_eq_none {κ α : Type} [DecidableEq κ] (l : List (κ × α)) (n : κ) :
    lookupKey l n = none ↔ n ∉ l.map Prod.fst := by
  induction l with
  | nil => simp [lookupKey]
  | cons p rest ih =>
    obtain ⟨k, v⟩ := p
    by_cases hk : k = n
    · subst hk
      simp [lookupKey]
    · simp [lookupKey, hk, ih, Ne.symm hk]

theorem lookupKey_mem {κ α : Type} [DecidableEq κ] {l : List (κ × α)} {n : κ} {v : α}
    (h : lookupKey l n = some v) : (n, v) ∈ l := by
  induction l with
  | nil => simp [lookupKey] at h
  | cons p rest ih =>
    obtain ⟨k, w⟩ := p
    by_cases hk : k = n
    · subst hk
      simp [lookupKey] at h
      simp [h]
    · simp [lookupKey, hk] at h
      exact List.mem_cons_of_mem _ (ih h)

theorem lookupKey_isSome_of_mem {κ α : Type} [DecidableEq κ] {l : List (κ × α)} {n : κ}
    (h : n ∈ l.map Prod.fst) : ∃ v, lookupKey l n = some v := by
  rcases hv : lookupKey l n with _ | v
  · exact absurd h ((lookupKey_eq_none l n).mp hv)
  · exact ⟨v, rfl⟩

theorem mem_keys_upsertKey {κ α : Type} [DecidableEq κ] (l : List (κ × α)) (k m : κ) (v : α) :
    m ∈ (upsertKey l k v).map Prod.fst ↔ m = k ∨ m ∈ l.map Prod.fst := by
  induction l with
  | nil => simp [upsertKey]
  | cons p rest ih =>
    obtain ⟨k0, w⟩ := p
    by_cases hk : k0 = k
    · subst hk
      simp [upsertKey]
    · simp [upsertKey, hk, ih]
      tauto

theorem nodup_keys_upsertKey {κ α : Type} [DecidableEq κ] {l : List (κ × α)} (k : κ) (v : α)
    (h : (l.map Prod.fst).Nodup) : ((upsertKey l k v).map Prod.fst).Nodup := by
  induction l with
  | nil => simp [upsertKey]
  | cons p rest ih =>
    obtain ⟨k0, w⟩ := p
    rw [List.map_cons, List.nodup_cons] at h
    by_cases hk : k0 = k
    · subst hk
      rw [show upsertKey ((k0, w) :: rest) k0 v = (k0, v) :: rest from by simp [upsertKey]]
      rw [List.map_cons, List.nodup_cons]
      exact h
    · rw [show upsertKey ((k0, w) :: rest) k v = (k0, w) :: upsertKey rest k v from by
        simp [upsertKey, hk]]
      rw [List.map_cons, List.nodup_cons]
      refine ⟨?_, ih h.2⟩
      intro hmem
      rcases (mem_keys_upsertKey rest k k0 v).mp hmem with h1 | h1
      · exact hk h1
      · exact h.1 h1

theorem forall_upsertKey {κ α : Type} [DecidableEq κ] {l : List (κ × α)} {k : κ} {v : α}
    {P : κ × α → Prop} (hl : ∀ q ∈ l, P q) (hv : P (k, v)) :
    ∀ q ∈ upsertKey l k v, P q := by
  induction l with
  | nil =>
    intro q hq
    simp [upsertKey] at hq
    simpa [hq]
  | cons p rest ih =>
    obtain ⟨k0, w⟩ := p
    intro q hq
    by_cases hk : k0 = k
    · subst hk
      simp [upsertKey] at hq
      rcases hq with hq | hq
      · simpa [hq]
      · exact hl q (List.mem_cons_of_mem _ hq)
    · simp [upsertKey, hk] at hq
      rcases hq with hq | hq
      · exact hl q (by simp [hq])
      · exact ih (fun q hq2 => hl q (List.mem_cons_of_mem _ hq2)) q hq

theorem mem_of_eraseKey {κ α : Type} [DecidableEq κ] {l : List (κ × α)} {k : κ} {q : κ × α}
    (h : q ∈ eraseKey l k) : q ∈ l := by
  induction l with
  | nil => simp [eraseKey] at h
  | cons p rest ih =>
    obtain ⟨k0, w⟩ := p
    by_cases hk : k0 = k
    · subst hk
      simp [eraseKey] at h
      exact List.mem_cons_of_mem _ h
    · simp [eraseKey, hk] at h
      rcases h with h | h
      · simp [h]
      · exact List.mem_cons_of_mem _ (ih h)

theorem keys_eraseKey_sublist {κ α : Type} [DecidableEq κ] (l : List (κ × α)) (k : κ) :
    ((eraseKey l k).map Prod.fst).Sublist (l.map Prod.fst) := by
  induction l with
  | nil => simp [eraseKey]
  | cons p rest ih =>
    obtain ⟨k0, w⟩ := p
    by_cases hk : k0 = k
    · subst hk
      rw [show eraseKey ((k0, w) :: rest) k0 = rest from by simp [eraseKey]]
      exact (List.map_cons Prod.fst (k0, w) rest) ▸ List.sublist_cons_self _ _
    · rw [show eraseKey ((k0, w) :: rest) k = (k0, w) :: eraseKey rest k from by
        simp [eraseKey, hk]]
      rw [List.map_cons, List.map_cons]
      exact ih.cons₂ _

theorem nodup_keys_eraseKey {κ α : Type} [DecidableEq κ] {l : List (κ × α)} (k : κ)
    (h : (l.map Prod.fst).Nodup) : ((eraseKey l k).map Prod.fst).Nodup :=
  (keys_eraseKey_sublist l k).nodup h

theorem mem_keys_eraseKey_iff {κ α : Type} [DecidableEq κ] {l : List (κ × α)} {k m : κ}
    (h : (l.map Prod.fst).Nodup) :
    m ∈ (eraseKey l k).map Prod.fst ↔ m ∈ l.map Prod.fst ∧ m ≠ k := by
  induction l with
  | nil => simp [eraseKey]
  | cons p rest ih =>
    obtain ⟨k0, w⟩ := p
    rw [List.map_cons, List.nodup_cons] at h
    by_cases hk : k0 = k
    · subst hk
      rw [show eraseKey ((k0, w) :: rest) k0 = rest from by simp [eraseKey]]
      rw [List.map_cons]
      constructor
      · intro hm
        refine ⟨List.mem_cons_of_mem _ hm, ?_⟩
        intro hcontra
        rw [hcontra] at hm
        exact h.1 hm
      · rintro ⟨hm, hne⟩
        rcases List.mem_cons.mp hm with hm | hm
        · exact absurd hm hne
        · exact hm
    · rw [show eraseKey ((k0, w) :: rest) k = (k0, w) :: eraseKey rest k from by
        simp [eraseKey, hk]]
      rw [List.map_cons, List.map_cons, List.mem_cons, List.mem_cons, ih h.2]
      constructor
      · rintro (hm | ⟨hm, hne⟩)
        · exact ⟨Or.inl hm, by rw [hm]; exact hk⟩
        · exact ⟨Or.inr hm, hne⟩
      · rintro ⟨hm | hm, hne⟩
        · exact Or.inl hm
        · exact Or.inr ⟨hm, hne⟩

theorem lookupKey_upsertKey_self {κ α : Type} [DecidableEq κ] (l : List (κ × α)) (k : κ) (v : α) :
    lookupKey (upsertKey l k v) k = some v := by
  induction l with
  | nil => simp [upsertKey, lookupKey]
  | cons p rest ih =>
    obtain ⟨k0, w⟩ := p
    by_cases hk : k0 = k
    · subst hk
      simp [upsertKey, lookupKey]
    · simp [upsertKey, hk, lookupKey, ih]

/-! Elementary facts about the embedded operations. -/

theorem validateMetric_ok_iff (n : String) :
    validateMetric n = Except.ok () ↔ metricReMatch n = true := by
  unfold validateMetric
  by_cases h : metricReMatch n
  · simp [h]
  · simp [h]

theorem exceptOk_eq_true {e : Except String Unit} :
    exceptOk e = true ↔ e = Except.ok () := by
  cases e with
  | ok u => cases u; simp [exceptOk]
  | error s => simp [exceptOk]

theorem buildHandler_ok {spec : MetricSpec} {h : MetricHandler}
    (H : buildHandler spec = Except.ok h) :
    h.spec = spec ∧ h.collector.fqName = spec.name := by
  simp only [buildHandler] at H
  repeat' split at H
  any_goals exact (Except.noConfusion H)
  all_goals injection H with H2
  all_goals subst H2
  all_goals simp [Collector.fqName]

theorem mem_doNames_iff_lookup {r : RegState} {m : String} :
    m ∈ doNames r ↔ ∃ h, lookupKey r.handlers m = some h := by
  constructor
  · intro hm
    exact lookupKey_isSome_of_mem hm
  · rintro ⟨h, hl⟩
    have := lookupKey_mem hl
    exact List.mem_map.mpr ⟨(m, h), this, rfl⟩

/-! Path lemmas for register and unregister. -/

theorem register_ok_match {r : RegState} {spec : MetricSpec}
    (hok : (register r spec).2 = Except.ok ()) : metricReMatch spec.name = true := by
  by_cases hre : metricReMatch spec.name
  · exact hre
  · simp [register, validateMetric, hre] at hok

theorem register_existing_same {r : RegState} {spec : MetricSpec} {h : MetricHandler}
    (hre : metricReMatch spec.name = true)
    (hl : lookupKey r.handlers spec.name = some h)
    (heq : MetricSpec.Hash h.spec = MetricSpec.Hash spec) :
    register r spec = (r, Except.ok ()) := by
  simp [register, validateMetric, hre, hl, heq]

theorem register_existing_changed {r : RegState} {spec : MetricSpec} {h : MetricHandler}
    (hInv : FullInv r) (hl : lookupKey r.handlers spec.name = some h)
    (hne : MetricSpec.Hash h.spec ≠ MetricSpec.Hash spec) :
    register r spec =
      (⟨upsertKey (eraseKey r.handlers spec.name) spec.name h,
        spec.name :: r.prom.erase spec.name⟩, Except.ok ()) := by
  have hmem : (spec.name, h) ∈ r.handlers := lookupKey_mem hl
  obtain ⟨hsn, hfq, hre, hp⟩ := hInv.2.2 _ hmem
  have hnodup : r.prom.Nodup := hInv.2.1
  have hnm : spec.name ∉ r.prom.erase spec.name := by
    intro hc
    exact ((List.Nodup.mem_erase_iff hnodup).mp hc).1 rfl
  simp [register, validateMetric, hre, hl, hne, promUnregister, hfq, hp,
    registerStore, promRegister, hnm]

theorem register_fresh_ok_state {r : RegState} {spec : MetricSpec} {r1 : RegState}
    (hl : lookupKey r.handlers spec.name = none)
    (hok : register r spec = (r1, Except.ok ())) :
    ∃ hdl, buildHandler spec = Except.ok hdl ∧
      r1 = ⟨upsertKey r.handlers spec.name hdl, hdl.collector.fqName :: r.prom⟩ ∧
      hdl.collector.fqName ∉ r.prom ∧ metricReMatch spec.name = true := by
  by_cases hre : metricReMatch spec.name
  · rcases hb : buildHandler spec with e | hdl
    · simp [register, validateMetric, hre, hl, hb] at hok
    · by_cases hpm : hdl.collector.fqName ∈ r.prom
      · simp [register, validateMetric, hre, hl, hb, registerStore, promRegister, hpm] at hok
      · refine ⟨hdl, rfl, ?_, hpm, hre⟩
        simp [register, validateMetric, hre, hl, hb, registerStore, promRegister, hpm] at hok
        exact hok.symm
  · simp [register, validateMetric, hre] at hok

theorem register_fresh_err_state {r : RegState} {spec : MetricSpec} {r1 : RegState} {e : String}
    (hl : lookupKey r.handlers spec.name = none)
    (herr : register r spec = (r1, Except.error e)) : r1 = r := by
  by_cases hre : metricReMatch spec.name
  · rcases hb : buildHandler spec with e2 | hdl
    · simp [register, validateMetric, hre, hl, hb] at herr
      exact herr.1.symm
    · by_cases hpm : hdl.collector.fqName ∈ r.prom
      · simp [register, validateMetric, hre, hl, hb, registerStore, promRegister, hpm] at herr
        exact herr.1.symm
      · simp [register, validateMetric, hre, hl, hb, registerStore, promRegister, hpm] at herr
  · simp [register, validateMetric, hre] at herr
    exact herr.1.symm

theorem unregister_none {r : RegState} {name : String}
    (hl : lookupKey r.handlers name = none) :
    unregister r name = (r, Except.error ("Unregister: metric " ++ name ++ " does not exist")) := by
  simp [unregister, hl]

theorem unregister_some_fail {r : RegState} {name : String} {h : MetricHandler}
    (hl : lookupKey r.handlers name = some h) (hmem : h.collector.fqName ∉ r.prom) :
    unregister r name = (r, Except.error ("Failed to unregister " ++ name)) := by
  simp [unregister, hl, promUnregister, hmem]

theorem unregister_some_ok {r : RegState} {name : String} {h : MetricHandler}
    (hl : lookupKey r.handlers name = some h) (hmem : h.collector.fqName ∈ r.prom) :
    unregister r name =
      (⟨eraseKey r.handlers name, r.prom.erase h.collector.fqName⟩, Except.ok ()) := by
  simp [unregister, hl, promUnregister, hmem]

theorem register_step {r : RegState} (spec : MetricSpec) (hInv : FullInv r) :
    FullInv (register r spec).1 ∧
    (∀ m, m ∈ doNames (register r spec).1 ↔
        (m ∈ doNames r ∨ (m = spec.name ∧ (register r spec).2 = Except.ok ()))) ∧
    (spec.name ∈ doNames r → (register r spec).2 = Except.ok ()) := by
  rcases hl : lookupKey r.handlers spec.name with _ | h
  · have hnot : spec.name ∉ doNames r := (lookupKey_eq_none _ _).mp hl
    rcases hres : register r spec with ⟨r1, res⟩
    cases res with
    | ok u =>
      cases u
      obtain ⟨hdl, hb, hr1, hpm, hre⟩ := register_fresh_ok_state hl hres
      obtain ⟨hspec_eq, hfq⟩ := buildHandler_ok hb
      subst hr1
      refine ⟨⟨nodup_keys_upsertKey _ _ hInv.1, ?_, ?_⟩, ?_, fun hmem => absurd hmem hnot⟩
      · rw [hfq]
        exact List.nodup_cons.mpr ⟨hfq ▸ hpm, hInv.2.1⟩
      · refine forall_upsertKey (fun q hq => ?_) ?_
        · obtain ⟨h1, h2, h3, h4⟩ := hInv.2.2 q hq
          exact ⟨h1, h2, h3, List.mem_cons_of_mem _ h4⟩
        · refine ⟨by rw [hspec_eq], hfq, hre, ?_⟩
          rw [hfq]
          exact List.mem_cons_self _ _
      · intro m
        simp only [doNames, mem_keys_upsertKey]
        constructor
        · rintro (hm | hm)
          · exact Or.inr ⟨hm, trivial⟩
          · exact Or.inl hm
        · rintro (hm | ⟨hm, _⟩)
          · exact Or.inr hm
          · exact Or.inl hm
    | error e =>
      have hr1 : r1 = r := register_fresh_err_state hl hres
      subst hr1
      refine ⟨hInv, ?_, fun hmem => absurd hmem hnot⟩
      intro m
      simp
  · by_cases hh : MetricSpec.Hash h.spec = MetricSpec.Hash spec
    · have hre : metricReMatch spec.name = true := (hInv.2.2 _ (lookupKey_mem hl)).2.2.1
      rw [register_existing_same hre hl hh]
      have hmemk : spec.name ∈ doNames r :=
        List.mem_map.mpr ⟨(spec.name, h), lookupKey_mem hl, rfl⟩
      refine ⟨hInv, ?_, fun _ => rfl⟩
      intro m
      constructor
      · exact fun hm => Or.inl hm
      · rintro (hm | ⟨hm, _⟩)
        · exact hm
        · exact hm ▸ hmemk
    · obtain ⟨hsn, hfq, hre, hp⟩ := hInv.2.2 _ (lookupKey_mem hl)
      have hmemk : spec.name ∈ doNames r :=
        List.mem_map.mpr ⟨(spec.name, h), lookupKey_mem hl, rfl⟩
      rw [register_existing_changed hInv hl hh]
      have hpn : r.prom.Nodup := hInv.2.1
      refine ⟨⟨?_, ?_, ?_⟩, ?_, fun _ => rfl⟩
      · exact nodup_keys_upsertKey _ _ (nodup_keys_eraseKey _ hInv.1)
      · refine List.nodup_cons.mpr ⟨?_, hpn.erase _⟩
        intro hc
        exact ((List.Nodup.mem_erase_iff hpn).mp hc).1 rfl
      · refine forall_upsertKey (fun q hq => ?_) ?_
        · obtain ⟨h1, h2, h3, h4⟩ := hInv.2.2 q (mem_of_eraseKey hq)
          refine ⟨h1, h2, h3, ?_⟩
          by_cases hq1 : q.1 = spec.name
          · rw [hq1]
            exact List.mem_cons_self _ _
          · exact List.mem_cons_of_mem _
              ((List.Nodup.mem_erase_iff hpn).mpr ⟨hq1, h4⟩)
        · exact ⟨hsn, hfq, hre, List.mem_cons_self _ _⟩
      · intro m
        simp only [doNames, mem_keys_upsertKey, mem_keys_eraseKey_iff hInv.1]
        constructor
        · rintro (hm | ⟨hm, _⟩)
          · exact Or.inl (hm ▸ hmemk)
          · exact Or.inl hm
        · rintro (hm | ⟨hm, _⟩)
          · by_cases hmn : m = spec.name
            · exact Or.inl hmn
            · exact Or.inr ⟨hm, hmn⟩
          · exact Or.inl hm

theorem unregister_step_ok {r : RegState} {name : String} (hInv : FullInv r)
    (hmem : name ∈ doNames r) :
    unregister r name = (⟨eraseKey r.handlers name, r.prom.erase name⟩, Except.ok ()) ∧
    FullInv ⟨eraseKey r.handlers name, r.prom.erase name⟩ ∧
    (∀ m, m ∈ doNames (⟨eraseKey r.handlers name, r.prom.erase name⟩ : RegState) ↔
        (m ∈ doNames r ∧ m ≠ name)) := by
  obtain ⟨h, hl⟩ := lookupKey_isSome_of_mem hmem
  obtain ⟨hsn, hfq, hre, hp⟩ := hInv.2.2 _ (lookupKey_mem hl)
  have hpn : r.prom.Nodup := hInv.2.1
  refine ⟨?_, ⟨nodup_keys_eraseKey _ hInv.1, hpn.erase _, ?_⟩, ?_⟩
  · have := unregister_some_ok hl (hfq ▸ hp)
    rw [hfq] at this
    exact this
  · intro q hq
    obtain ⟨h1, h2, h3, h4⟩ := hInv.2.2 q (mem_of_eraseKey hq)
    refine ⟨h1, h2, h3, ?_⟩
    have hq1 : q.1 ∈ (eraseKey r.handlers name).map Prod.fst :=
      List.mem_map.mpr ⟨q, hq, rfl⟩
    have hne : q.1 ≠ name := ((mem_keys_eraseKey_iff hInv.1).mp hq1).2
    exact (List.Nodup.mem_erase_iff hpn).mpr ⟨hne, h4⟩
  · intro m
    exact mem_keys_eraseKey_iff hInv.1

theorem registerPhase_spec : ∀ (specs : List MetricSpec) (r : RegState), FullInv r →
    FullInv (registerPhase r specs).1 ∧
    ((registerPhase r specs).2.map Prod.fst = specs.map MetricSpec.name) ∧
    (∀ m, m ∈ doNames (registerPhase r specs).1 ↔
        (m ∈ doNames r ∨ (m, true) ∈ (registerPhase r specs).2)) ∧
    (∀ m, m ∈ doNames r → m ∈ specs.map MetricSpec.name →
        (m, true) ∈ (registerPhase r specs).2) := by
  intro specs
  induction specs with
  | nil =>
    intro r hInv
    refine ⟨hInv, rfl, ?_, ?_⟩
    · intro m
      simp [registerPhase]
    · intro m _ hm
      simp at hm
  | cons spec rest ih =>
    intro r hInv
    obtain ⟨hInv1, hkeys, hforce⟩ := register_step spec hInv
    obtain ⟨ihInv, ihmap, ihkeys, ihforce⟩ := ih (register r spec).1 hInv1
    simp only [registerPhase]
    refine ⟨ihInv, ?_, ?_, ?_⟩
    · simp [ihmap]
    · intro m
      rw [ihkeys m, hkeys m]
      simp only [List.mem_cons, Prod.mk.injEq]
      constructor
      · rintro ((hm | ⟨hm1, hm2⟩) | hm)
        · exact Or.inl hm
        · exact Or.inr (Or.inl ⟨hm1, (exceptOk_eq_true.mpr hm2).symm⟩)
        · exact Or.inr (Or.inr hm)
      · rintro (hm | (⟨hm1, hm2⟩ | hm))
        · exact Or.inl (Or.inl hm)
        · exact Or.inl (Or.inr ⟨hm1, exceptOk_eq_true.mp hm2.symm⟩)
        · exact Or.inr hm
    · intro m hm hnames
      rcases List.mem_cons.mp hnames with hm1 | hm1
      · have hok : (register r spec).2 = Except.ok () := hforce (hm1 ▸ hm)
        refine List.mem_cons.mpr (Or.inl ?_)
        rw [hm1, hok]
        exact rfl
      · right
        exact ihforce m ((hkeys m).mpr (Or.inl hm)) hm1

theorem unregisterPhase_spec : ∀ (names : List String) (r : RegState), FullInv r →
    names.Nodup → (∀ n ∈ names, n ∈ doNames r) →
    FullInv (unregisterPhase r names).1 ∧
    (∀ m, m ∈ doNames (unregisterPhase r names).1 ↔ (m ∈ doNames r ∧ m ∉ names)) ∧
    ((unregisterPhase r names).2 = names.map (fun n => (n, true))) := by
  intro names
  induction names with
  | nil =>
    intro r hInv _ _
    refine ⟨hInv, ?_, rfl⟩
    intro m
    simp [unregisterPhase]
  | cons name rest ih =>
    intro r hInv hnodup hsub
    obtain ⟨hstep, hInv1, hkeys⟩ :=
      unregister_step_ok hInv (hsub name (List.mem_cons_self _ _))
    have hrest : ∀ n ∈ rest, n ∈ doNames (⟨eraseKey r.handlers name, r.prom.erase name⟩ : RegState) := by
      intro n hn
      have hne : n ≠ name := by
        intro hc
        rw [hc] at hn
        exact (List.nodup_cons.mp hnodup).1 hn
      exact (hkeys n).mpr ⟨hsub n (List.mem_cons_of_mem _ hn), hne⟩
    obtain ⟨ihInv, ihkeys, ihlog⟩ :=
      ih ⟨eraseKey r.handlers name, r.prom.erase name⟩ hInv1
        (List.nodup_cons.mp hnodup).2 hrest
    simp only [unregisterPhase, hstep]
    refine ⟨ihInv, ?_, ?_⟩
    · intro m
      rw [ihkeys m, hkeys m]
      simp only [List.mem_cons]
      constructor
      · rintro ⟨⟨hm1, hm2⟩, hm3⟩
        exact ⟨hm1, fun hc => hc.elim hm2 hm3⟩
      · rintro ⟨hm1, hm2⟩
        exact ⟨⟨hm1, fun hc => hm2 (Or.inl hc)⟩, fun hc => hm2 (Or.inr hc)⟩
    · simp [ihlog, exceptOk]

theorem Reload_eq (r : RegState) (specs : List MetricSpec) :
    Reload r specs =
      ((unregisterPhase (registerPhase r specs).1
          (sliceSubStr (doNames r) (reloadKeptNames specs))).1,
        ⟨(registerPhase r specs).2,
          (unregisterPhase (registerPhase r specs).1
            (sliceSubStr (doNames r) (reloadKeptNames specs))).2⟩) := rfl

theorem fullInv_initState : FullInv initState := by
  refine ⟨by simp [initState], by simp [initState], ?_⟩
  intro p hp
  simp [initState] at hp

theorem Reload_spec (r : RegState) (specs : List MetricSpec) (hInv : FullInv r) :
    FullInv (Reload r specs).1 ∧
    (∀ m, m ∈ doNames (Reload r specs).1 ↔
        ((m, true) ∈ (Reload r specs).2.regs ∨ (m, false) ∈ (Reload r specs).2.unregs)) := by
  obtain ⟨hInv1, hmap, hkeys1, hforce⟩ := registerPhase_spec specs r hInv
  have hsubnodup : (sliceSubStr (doNames r) (reloadKeptNames specs)).Nodup :=
    List.Nodup.filter _ hInv.1
  have hsubmem : ∀ n ∈ sliceSubStr (doNames r) (reloadKeptNames specs),
      n ∈ doNames (registerPhase r specs).1 := by
    intro n hn
    exact (hkeys1 n).mpr (Or.inl (List.mem_filter.mp hn).1)
  obtain ⟨hInv2, hkeys2, hlog2⟩ := unregisterPhase_spec _ _ hInv1 hsubnodup hsubmem
  rw [Reload_eq]
  refine ⟨hInv2, ?_⟩
  intro m
  rw [hkeys2 m]
  have hfalse : ((m, false) ∈ (unregisterPhase (registerPhase r specs).1
      (sliceSubStr (doNames r) (reloadKeptNames specs))).2) ↔ False := by
    rw [hlog2]
    simp
  constructor
  · rintro ⟨hm2, hm3⟩
    rcases (hkeys1 m).mp hm2 with hmr | hlog
    · have hkept : m ∈ reloadKeptNames specs := by
        by_contra hc
        exact hm3 (List.mem_filter.mpr ⟨hmr, by simpa using hc⟩)
      exact Or.inl (hforce m hmr hkept)
    · exact Or.inl hlog
  · rintro (hlog | hbad)
    · have hm2 : m ∈ doNames (registerPhase r specs).1 := (hkeys1 m).mpr (Or.inr hlog)
      have hkept : m ∈ reloadKeptNames specs := by
        have : m ∈ (registerPhase r specs).2.map Prod.fst :=
          List.mem_map.mpr ⟨(m, true), hlog, rfl⟩
        rw [hmap] at this
        exact this
      refine ⟨hm2, ?_⟩
      intro hc
      have := List.mem_filter.mp hc
      simp at this
      exact this.2 hkept
    · exact absurd (hfalse.mp hbad) id

/-! Preservation of the claimed registry invariant by every operation,
from an arbitrary state satisfying it. -/

theorem regInv_register (r : RegState) (spec : MetricSpec) (hI : RegInvariant r) :
    RegInvariant (register r spec).1 := by
  by_cases hre : metricReMatch spec.name
  case neg => simpa [register, validateMetric, hre] using hI
  case pos =>
    rcases hl : lookupKey r.handlers spec.name with _ | h
    · rcases hb : buildHandler spec with e | hdl
      · simpa [register, validateMetric, hre, hl, hb] using hI
      · obtain ⟨hspec_eq, _⟩ := buildHandler_ok hb
        by_cases hpm : hdl.collector.fqName ∈ r.prom
        · simpa [register, validateMetric, hre, hl, hb, registerStore, promRegister, hpm]
            using hI
        · have hstate : (register r spec).1 =
              ⟨upsertKey r.handlers spec.name hdl, hdl.collector.fqName :: r.prom⟩ := by
            simp [register, validateMetric, hre, hl, hb, registerStore, promRegister, hpm]
          rw [hstate]
          exact ⟨forall_upsertKey hI.1 (by rw [hspec_eq]),
            nodup_keys_upsertKey _ _ hI.2⟩
    · by_cases hh : MetricSpec.Hash h.spec = MetricSpec.Hash spec
      · rw [register_existing_same hre hl hh]
        exact hI
      · have hP : h.spec.name = spec.name := hI.1 _ (lookupKey_mem hl)
        by_cases hpm : h.collector.fqName ∈ r.prom
        · by_cases hpm2 : h.collector.fqName ∈ r.prom.erase h.collector.fqName
          · have hstate : (register r spec).1 =
                ⟨eraseKey r.handlers spec.name, r.prom.erase h.collector.fqName⟩ := by
              simp [register, validateMetric, hre, hl, hh, promUnregister, hpm,
                registerStore, promRegister, hpm2]
            rw [hstate]
            exact ⟨fun q hq => hI.1 q (mem_of_eraseKey hq), nodup_keys_eraseKey _ hI.2⟩
          · have hstate : (register r spec).1 =
                ⟨upsertKey (eraseKey r.handlers spec.name) spec.name h,
                  h.collector.fqName :: r.prom.erase h.collector.fqName⟩ := by
              simp [register, validateMetric, hre, hl, hh, promUnregister, hpm,
                registerStore, promRegister, hpm2]
            rw [hstate]
            exact ⟨forall_upsertKey (fun q hq => hI.1 q (mem_of_eraseKey hq)) hP,
              nodup_keys_upsertKey _ _ (nodup_keys_eraseKey _ hI.2)⟩
        · have hstate : (register r spec).1 = r := by
            simp [register, validateMetric, hre, hl, hh, promUnregister, hpm]
          rw [hstate]
          exact hI

theorem regInv_unregister (r : RegState) (name : String) (hI : RegInvariant r) :
    RegInvariant (unregister r name).1 := by
  rcases hl : lookupKey r.handlers name with _ | h
  · simpa [unregister, hl] using hI
  · by_cases hpm : h.collector.fqName ∈ r.prom
    · have hstate : (unregister r name).1 =
          ⟨eraseKey r.handlers name, r.prom.erase h.collector.fqName⟩ := by
        simp [unregister, hl, promUnregister, hpm]
      rw [hstate]
      exact ⟨fun q hq => hI.1 q (mem_of_eraseKey hq), nodup_keys_eraseKey _ hI.2⟩
    · simpa [unregister, hl, promUnregister, hpm] using hI

theorem regInv_registerPhase (specs : List MetricSpec) :
    ∀ (r : RegState), RegInvariant r → RegInvariant (registerPhase r specs).1 := by
  induction specs with
  | nil => intro r hI; exact hI
  | cons spec rest ih =>
    intro r hI
    exact ih _ (regInv_register r spec hI)

theorem regInv_unregisterPhase (names : List String) :
    ∀ (r : RegState), RegInvariant r → RegInvariant (unregisterPhase r names).1 := by
  induction names with
  | nil => intro r hI; exact hI
  | cons name rest ih =>
    intro r hI
    exact ih _ (regInv_unregister r name hI)

theorem regInv_Reload (r : RegState) (specs : List MetricSpec) (hI : RegInvariant r) :
    RegInvariant (Reload r specs).1 := by
  rw [Reload_eq]
  exact regInv_unregisterPhase _ _ (regInv_registerPhase specs r hI)

/-! Characterizations of the validation helpers. -/

theorem isWordChar_of_lower {c : Char} (h : isLowerAlpha c = true) : isWordChar c = true := by
  simp [isWordChar, h]

theorem metricReMatch_iff (s : String) :
    metricReMatch s = true ↔
      ∃ c cs, s.toList = c :: cs ∧ isLowerAlpha c = true ∧ cs ≠ [] ∧
        cs.all isWordChar = true := by
  unfold metricReMatch
  simp only [List.any_eq_true, List.mem_range]
  constructor
  · rintro ⟨k, hk, hconj⟩
    rw [Bool.and_eq_true, Bool.and_eq_true] at hconj
    obtain ⟨⟨hkpos, htake⟩, hdrop⟩ := hconj
    have hk1 : 0 < k := of_decide_eq_true hkpos
    rcases hcs : s.toList with _ | ⟨c, cs2⟩
    · rw [hcs] at hk
      simp at hk
    · rw [hcs] at htake hdrop hk
      refine ⟨c, cs2, rfl, ?_, ?_, ?_⟩
      · have hmem : c ∈ (c :: cs2).take k := by
          rcases k with _ | k2
          · omega
          · rw [List.take_succ_cons]
            exact List.mem_cons_self _ _
        exact List.all_eq_true.mp htake c hmem
      · intro hnil
        rw [hnil] at hk
        simp at hk
        omega
      · rw [List.all_eq_true]
        intro x hx
        rcases k with _ | k2
        · omega
        · rw [List.take_succ_cons] at htake
          rw [List.drop_succ_cons] at hdrop
          have hsplit := List.take_append_drop k2 cs2
          rw [← hsplit] at hx
          rcases List.mem_append.mp hx with hx1 | hx2
          · exact isWordChar_of_lower
              (List.all_eq_true.mp htake x (List.mem_cons_of_mem _ hx1))
          · exact List.all_eq_true.mp hdrop x hx2
  · rintro ⟨c, cs2, heq, hc, hne, hall⟩
    refine ⟨1, ?_, ?_⟩
    · rw [heq]
      rcases cs2 with _ | ⟨d, cs3⟩
      · exact absurd rfl hne
      · simp
    · rw [heq, Bool.and_eq_true, Bool.and_eq_true]
      refine ⟨⟨by decide, ?_⟩, ?_⟩
      · rw [List.take_succ_cons]
        simp [hc]
      · rw [List.drop_succ_cons]
        simpa using hall

theorem validateLabels_iff (labels : List String) :
    validateLabels labels = Except.ok () ↔
      (labels.dropLast.all metricReMatch = true ∧ labels.Nodup) := by
  induction labels with
  | nil => simp [validateLabels]
  | cons x rest ih =>
    cases rest with
    | nil => simp [validateLabels]
    | cons y rest2 =>
      by_cases hre : metricReMatch x
      · have hv : validateMetric x = Except.ok () := by simp [validateMetric, hre]
        by_cases hdup : x ∈ (y :: rest2)
        · have heq2 : validateLabels (x :: y :: rest2) =
              Except.error ("Duplicate label found: " ++ x) := by
            simp [validateLabels, hv, hdup]
          rw [heq2]
          simp [hdup]
        · have heq2 : validateLabels (x :: y :: rest2) = validateLabels (y :: rest2) := by
            simp [validateLabels, hv, hdup]
          rw [heq2, ih]
          simp [hre, hdup]
      · have hv : validateMetric x =
            Except.error ("Metric name " ++ x ++ " is not valid") := by
          simp [validateMetric, hre]
        have heq2 : validateLabels (x :: y :: rest2) =
            Except.error ("Metric name " ++ x ++ " is not valid") := by
          simp [validateLabels, hv]
        rw [heq2]
        simp [hre]

theorem validateObjectivesAux_err :
    ∀ (objs : List (String × Rat)) (acc : List (GoFloat × Rat)),
      (∃ p ∈ objs, parseFloatGo p.1 = none) →
      ∃ e, validateObjectivesAux acc objs = Except.error e := by
  intro objs
  induction objs with
  | nil =>
    intro acc h
    simp at h
  | cons p rest ih =>
    intro acc h
    obtain ⟨k, v⟩ := p
    rcases hp : parseFloatGo k with _ | f
    · exact ⟨"strconv.ParseFloat: parsing " ++ k ++ ": invalid syntax",
        by simp [validateObjectivesAux, hp]⟩
    · rcases h with ⟨q, hq, hqn⟩
      rcases List.mem_cons.mp hq with hq1 | hq1
      · rw [hq1] at hqn
        simp at hqn
        rw [hqn] at hp
        simp at hp
      · have := ih (upsertKey acc f v) ⟨q, hq1, hqn⟩
        simpa [validateObjectivesAux, hp] using this

theorem validateObjectivesAux_ok :
    ∀ (objs : List (String × Rat)) (acc : List (GoFloat × Rat)),
      (∀ p ∈ objs, parseFloatGo p.1 ≠ none) →
      validateObjectivesAux acc objs = Except.ok
        (objs.foldl
          (fun acc2 p =>
            match parseFloatGo p.1 with
            | some f => upsertKey acc2 f p.2
            | none => acc2) acc) := by
  intro objs
  induction objs with
  | nil =>
    intro acc _
    rfl
  | cons p rest ih =>
    intro acc h
    obtain ⟨k, v⟩ := p
    rcases hp : parseFloatGo k with _ | f
    · exact absurd hp (h (k, v) (List.mem_cons_self _ _))
    · simp only [validateObjectivesAux, hp, List.foldl_cons]
      exact ih _ (fun q hq => h q (List.mem_cons_of_mem _ hq))

theorem validateObjectives_ok_convert {objs : List (String × Rat)}
    (h : ∀ p ∈ objs, parseFloatGo p.1 ≠ none) :
    validateObjectives objs = Except.ok (convertObjectives objs) :=
  validateObjectivesAux_ok objs [] h

theorem register_fresh_of_build_err {r : RegState} {spec : MetricSpec} {e : String}
    (hl : lookupKey r.handlers spec.name = none)
    (hb : buildHandler spec = Except.error e) :
    (register r spec).1 = r ∧ exceptOk (register r spec).2 = false := by
  by_cases hre : metricReMatch spec.name
  · simp [register, validateMetric, hre, hl, hb, exceptOk]
  · simp [register, validateMetric, hre, exceptOk]

theorem buildHandler_summary (spec : MetricSpec) (ht : spec.type = "summary") :
    buildHandler spec =
      match (if 0 < spec.objectives.length then validateObjectives spec.objectives
             else Except.ok defaultObjectives) with
      | Except.error e => Except.error e
      | Except.ok objectives =>
        if spec.labels.isEmpty then
          Except.ok ⟨spec, Collector.summary spec.name spec.help objectives⟩
        else
          match validateLabels spec.labels with
          | Except.error e => Except.error e
          | Except.ok _ =>
            Except.ok ⟨spec, Collector.summaryVec spec.name spec.help objectives spec.labels⟩ := by
  rw [buildHandler, ht]
  simp

theorem buildHandler_err_of_labels {spec : MetricSpec}
    (hlabels : spec.labels ≠ []) (hlv : validateLabels spec.labels ≠ Except.ok ()) :
    ∃ e, buildHandler spec = Except.error e := by
  have hempty : spec.labels.isEmpty = false := by
    rcases hsl : spec.labels with _ | ⟨x, xs⟩
    · exact absurd hsl hlabels
    · rfl
  rcases hv : validateLabels spec.labels with e | u
  case ok =>
    cases u
    exact absurd hv hlv
  case error =>
    by_cases ht1 : spec.type = "counter"
    · exact ⟨e, by rw [buildHandler, ht1]; simp [hempty, hv]⟩
    · by_cases ht2 : spec.type = "gauge"
      · exact ⟨e, by rw [buildHandler, ht2]; simp [hempty, hv, ht1]⟩
      · by_cases ht3 : spec.type = "histogram"
        · exact ⟨e, by rw [buildHandler, ht3]; simp [hempty, hv, ht1, ht2]⟩
        · by_cases ht4 : spec.type = "summary"
          · rw [buildHandler_summary spec ht4]
            rcases hobj : (if 0 < spec.objectives.length then
                validateObjectives spec.objectives
              else Except.ok defaultObjectives) with e2 | objs
            · exact ⟨e2, rfl⟩
            · exact ⟨e, by simp [hempty, hv]⟩
          · exact ⟨"Unknown metric " ++ spec.name ++ " is unknown type " ++ spec.type,
              by rw [buildHandler]; simp [ht1, ht2, ht3, ht4]⟩

theorem range_filterMap_get {α : Type} (l : List α) :
    (List.range l.length).filterMap (fun i => l.get? i) = l := by
  induction l with
  | nil => rfl
  | cons x xs ih =>
    rw [List.length_cons, List.range_succ_eq_map, List.filterMap_cons]
    simp only [List.get?_cons_zero, List.filterMap_map]
    have hfun : ((fun i => (x :: xs).get? i) ∘ Nat.succ) = (fun i => xs.get? i) := by
      funext i
      simp [Function.comp, List.get?_cons_succ]
    rw [hfun, ih]

/-! Claim theorems. -/

/-- C1 counterexample: from the initial state, registering the ab counter
spec and then re-registering the same name with a different fingerprint
leaves the OLD handler (with the old spec, help text one) stored under ab;
no handler is built from the new spec, refuting that the stored handler has
the new spec afterwards. -/
theorem register_changed_spec_cex :
    MetricSpec.Hash specAbOne ≠ MetricSpec.Hash specAbTwo ∧
    (register (register initState specAbOne).1 specAbTwo).2 = Except.ok () ∧
    lookupKey ((register (register initState specAbOne).1 specAbTwo).1).handlers "ab" =
      some ⟨specAbOne, Collector.counter "ab" "help one"⟩ ∧
    specAbOne ≠ specAbTwo := by
  refine ⟨by decide, rfl, rfl, by decide⟩

/-- C1 amended: when a handler exists under the spec name with a differing
fingerprint, register unregisters the old collector and deletes the map
entry, then re-registers the OLD collector with the exposition surface and
re-stores the OLD handler under the name, succeeding; no handler is built
from the new spec, so the stored handler keeps the old spec. -/
theorem register_changed_fingerprint_rereg_old
    (r : RegState) (spec : MetricSpec) (h : MetricHandler)
    (hInv : FullInv r)
    (hl : lookupKey r.handlers spec.name = some h)
    (hne : MetricSpec.Hash h.spec ≠ MetricSpec.Hash spec) :
    register r spec =
      (⟨upsertKey (eraseKey r.handlers spec.name) spec.name h,
        spec.name :: r.prom.erase spec.name⟩, Except.ok ()) ∧
    lookupKey (register r spec).1.handlers spec.name = some h := by
  have heq := register_existing_changed hInv hl hne
  refine ⟨heq, ?_⟩
  rw [heq]
  exact lookupKey_upsertKey_self _ _ _

/-- Reachability fact used by the C1 witness: the state after registering
the ab counter spec from the initial state satisfies the full invariant. -/
theorem fullInv_after_specAbOne : FullInv (register initState specAbOne).1 := by
  have hred : (register initState specAbOne).1 =
      ⟨[("ab", ⟨specAbOne, Collector.counter "ab" "help one"⟩)],
        ["ab", "pmp_metrics_total"]⟩ := rfl
  rw [hred]
  refine ⟨by decide, by decide, ?_⟩
  intro p hp
  simp only [List.mem_singleton] at hp
  rw [hp]
  refine ⟨rfl, rfl, by decide, by decide⟩

/-- C1 witness for the amended theorem at the concrete reload of ab. -/
theorem register_changed_fingerprint_rereg_old_witness :
    register (register initState specAbOne).1 specAbTwo =
      (⟨upsertKey (eraseKey (register initState specAbOne).1.handlers "ab") "ab"
          ⟨specAbOne, Collector.counter "ab" "help one"⟩,
        "ab" :: (register initState specAbOne).1.prom.erase "ab"⟩, Except.ok ()) ∧
    lookupKey (register (register initState specAbOne).1 specAbTwo).1.handlers "ab" =
      some ⟨specAbOne, Collector.counter "ab" "help one"⟩ :=
  register_changed_fingerprint_rereg_old (register initState specAbOne).1 specAbTwo
    ⟨specAbOne, Collector.counter "ab" "help one"⟩ fullInv_after_specAbOne rfl (by decide)

/-- C2 counterexample: the kept-name slice of Reload contains every incoming
name, including one whose registration errored (an unknown-type spec): the
reload diff keeps ab although its registration failed, refuting that
errored names are excluded from the kept set. -/
theorem reload_keeps_errored_name_cex :
    reloadKeptNames [specBogus] = ["ab"] ∧
    (Reload initState [specBogus]).2.regs = [("ab", false)] ∧
    doNames (Reload initState [specBogus]).1 = [] := by
  refine ⟨by decide, by decide, by decide⟩

/-- C2 amended: the kept set holds every incoming name regardless of
outcome; still, for all spec lists A then B applied from the initial state,
the final name set equals exactly the successfully registered names of B
united with the names whose unregistration failed (the latter set being
empty: unregistration of a live handler never fails). -/
theorem Reload_names_characterization (A B : List MetricSpec) (n : String) :
    n ∈ doNames (Reload (Reload initState A).1 B).1 ↔
      ((n, true) ∈ (Reload (Reload initState A).1 B).2.regs ∨
        (n, false) ∈ (Reload (Reload initState A).1 B).2.unregs) :=
  (Reload_spec _ B ((Reload_spec initState A fullInv_initState).1)).2 n

/-- C3 counterexample: a label list whose last element violates the grammar
passes validation, and a spec carrying it registers successfully, refuting
that every label is grammar-checked. -/
theorem validateLabels_last_label_cex :
    validateLabels ["ab", "NO"] = Except.ok () ∧ metricReMatch "NO" = false ∧
    (register initState specBadLastLabel).2 = Except.ok () ∧
    lookupKey (register initState specBadLastLabel).1.handlers "cd" =
      some ⟨specBadLastLabel, Collector.counterVec "cd" "" ["ab", "NO"]⟩ := by
  refine ⟨rfl, by decide, rfl, rfl⟩

/-- C3 amended: label validation grammar-checks every label except the last
one and rejects any duplicate pair; whenever it fails on a nonempty label
list and no handler exists under the name, registration errors and the
state is unchanged. -/
theorem validateLabels_characterization :
    (∀ labels : List String, validateLabels labels = Except.ok () ↔
      (labels.dropLast.all metricReMatch = true ∧ labels.Nodup)) ∧
    (∀ (r : RegState) (spec : MetricSpec),
      lookupKey r.handlers spec.name = none → spec.labels ≠ [] →
      validateLabels spec.labels ≠ Except.ok () →
      (register r spec).1 = r ∧ exceptOk (register r spec).2 = false) := by
  refine ⟨validateLabels_iff, ?_⟩
  intro r spec hl hlabels hlv
  obtain ⟨e, hb⟩ := buildHandler_err_of_labels hlabels hlv
  exact register_fresh_of_build_err hl hb

/-- C3 witness for the amended theorem at a duplicated label list. -/
theorem validateLabels_characterization_witness :
    (register initState specDupLabels).1 = initState ∧
    exceptOk (register initState specDupLabels).2 = false :=
  validateLabels_characterization.2 initState specDupLabels rfl (by decide)
    (fun hc => Except.noConfusion hc)

/-- C4 counterexample: the single-letter name a lies in the claimed grammar
(a lowercase letter) yet the regexp, which demands at least two characters,
rejects it, so register refuses it. -/
theorem metricRe_single_letter_cex :
    metricReMatch "a" = false ∧ isLowerAlpha 'a' = true ∧
    validateMetric "a" = Except.error ("Metric name a is not valid") ∧
    (register initState ⟨"counter", "a", "", [], [], []⟩).2 =
      Except.error ("Metric name a is not valid") := by
  refine ⟨by decide, by decide, rfl, rfl⟩

/-- C4 amended: name validation accepts exactly the strings of length at
least two consisting of a lowercase letter followed by a nonempty run of
lowercase letters, digits or underscores; single-character names are
rejected. -/
theorem metricRe_characterization :
    (∀ s : String, metricReMatch s = true ↔
      ∃ c cs, s.toList = c :: cs ∧ isLowerAlpha c = true ∧ cs ≠ [] ∧
        cs.all isWordChar = true) ∧
    (∀ s : String, validateMetric s = Except.ok () ↔ metricReMatch s = true) :=
  ⟨metricReMatch_iff, validateMetric_ok_iff⟩

/-- C5: unregister requires an existing handler; when the exposition
surface refuses the unregistration the handler is kept; only on success is
the map entry removed. -/
theorem unregister_spec (r : RegState) (name : String) :
    (lookupKey r.handlers name = none →
      unregister r name =
        (r, Except.error ("Unregister: metric " ++ name ++ " does not exist"))) ∧
    (∀ h, lookupKey r.handlers name = some h → h.collector.fqName ∉ r.prom →
      unregister r name = (r, Except.error ("Failed to unregister " ++ name))) ∧
    (∀ h, lookupKey r.handlers name = some h → h.collector.fqName ∈ r.prom →
      unregister r name =
        (⟨eraseKey r.handlers name, r.prom.erase h.collector.fqName⟩, Except.ok ())) :=
  ⟨fun hl => unregister_none hl, fun _ hl hm => unregister_some_fail hl hm,
    fun _ hl hm => unregister_some_ok hl hm⟩

/-- C5 witness: a stored handler whose collector is absent from the
exposition surface is not removed by a failing unregister. -/
theorem unregister_spec_witness :
    unregister stuckState "ab" =
      (stuckState, Except.error ("Failed to unregister " ++ "ab")) :=
  (unregister_spec stuckState "ab").2.1 ⟨specAbOne, Collector.counter "ab" "help one"⟩
    (by decide) (by decide)

/-- C6: a second registration of a spec whose fingerprint equals the stored
one is a success that changes nothing; in particular registering the same
fresh spec twice succeeds with the second call a no-op. -/
theorem register_idempotent :
    (∀ (r : RegState) (spec : MetricSpec) (r1 : RegState) (h : MetricHandler),
      register r spec = (r1, Except.ok ()) →
      lookupKey r1.handlers spec.name = some h →
      MetricSpec.Hash h.spec = MetricSpec.Hash spec →
      register r1 spec = (r1, Except.ok ())) ∧
    (∀ (r : RegState) (spec : MetricSpec) (r1 : RegState),
      lookupKey r.handlers spec.name = none →
      register r spec = (r1, Except.ok ()) →
      register r1 spec = (r1, Except.ok ())) := by
  have part1 : ∀ (r : RegState) (spec : MetricSpec) (r1 : RegState) (h : MetricHandler),
      register r spec = (r1, Except.ok ()) →
      lookupKey r1.handlers spec.name = some h →
      MetricSpec.Hash h.spec = MetricSpec.Hash spec →
      register r1 spec = (r1, Except.ok ()) := by
    intro r spec r1 h hreg hl hh
    have hre : metricReMatch spec.name = true := register_ok_match (by rw [hreg])
    exact register_existing_same hre hl hh
  refine ⟨part1, ?_⟩
  intro r spec r1 hl hreg
  obtain ⟨hdl, hb, hr1, hpm, hre⟩ := register_fresh_ok_state hl hreg
  obtain ⟨hspec_eq, hfq⟩ := buildHandler_ok hb
  have hlook : lookupKey r1.handlers spec.name = some hdl := by
    rw [hr1]
    exact lookupKey_upsertKey_self _ _ _
  exact part1 r spec r1 hdl hreg hlook (by rw [hspec_eq])

/-- C6 witness: the second registration of the ab counter spec is a no-op
success. -/
theorem register_idempotent_witness :
    register (register initState specAbOne).1 specAbOne =
      ((register initState specAbOne).1, Except.ok ()) :=
  register_idempotent.2 initState specAbOne (register initState specAbOne).1
    rfl rfl

/-- C7: a payload that fails to decode is counted as one error and forwards
no update at all, while a successfully decoded batch is forwarded whole,
each update exactly once, in batch order (the index loop forwards exactly
the batch). -/
theorem dataParser_spec :
    (∀ metrics : List Metric, forwardBatch metrics = metrics) ∧
    (∀ (rest : List (Except String (List Metric))) (e : String),
      DataParser (Except.error e :: rest) =
        ((DataParser rest).1, (DataParser rest).2 + 1)) ∧
    (∀ (rest : List (Except String (List Metric))) (metrics : List Metric),
      DataParser (Except.ok metrics :: rest) =
        (metrics ++ (DataParser rest).1, (DataParser rest).2)) := by
  have hfb : ∀ metrics : List Metric, forwardBatch metrics = metrics := by
    intro metrics
    exact range_filterMap_get metrics
  refine ⟨hfb, ?_, ?_⟩
  · intro rest e
    rfl
  · intro rest metrics
    simp [DataParser, hfb]

/-- C8: the content fingerprint is a function of exactly the type, help,
labels, buckets and objectives fields: two specs agreeing on those five
fields have equal fingerprints whatever their names. -/
theorem Hash_content_fingerprint (s1 s2 : MetricSpec)
    (ht : s1.type = s2.type) (hh : s1.help = s2.help) (hl : s1.labels = s2.labels)
    (hb : s1.buckets = s2.buckets) (ho : s1.objectives = s2.objectives) :
    MetricSpec.Hash s1 = MetricSpec.Hash s2 := by
  simp [MetricSpec.Hash, ht, hh, hl, hb, ho]

/-- C8 witness: two specs differing only in the name have equal
fingerprints. -/
theorem Hash_content_fingerprint_witness :
    MetricSpec.Hash specAbOne = MetricSpec.Hash specZz :=
  Hash_content_fingerprint specAbOne specZz rfl rfl rfl rfl rfl

/-- C9: the registry invariant (each key equals its handler's own spec
name; no duplicate names) is preserved by register, unregister, Reload and
Handle from any state satisfying it. -/
theorem registry_invariant_preserved
    (r : RegState) (spec : MetricSpec) (name : String) (specs : List MetricSpec)
    (metric : Metric) (hI : RegInvariant r) :
    RegInvariant (register r spec).1 ∧ RegInvariant (unregister r name).1 ∧
    RegInvariant (Reload r specs).1 ∧ RegInvariant (Handle r metric).1 :=
  ⟨regInv_register r spec hI, regInv_unregister r name hI,
    regInv_Reload r specs hI, hI⟩

/-- C9 witness at the initial state. -/
theorem registry_invariant_preserved_witness :
    RegInvariant (register initState specAbOne).1 ∧
    RegInvariant (unregister initState "ab").1 ∧
    RegInvariant (Reload initState []).1 ∧
    RegInvariant (Handle initState ⟨"ab", [], "inc", 1⟩).1 :=
  registry_invariant_preserved initState specAbOne "ab" []
    ⟨"ab", [], "inc", 1⟩ ⟨by intro p hp; simp [initState] at hp, by simp [initState]⟩

/-- C10: for a summary spec with no stored handler, an unparsable
objectives key makes registration fail with the state unchanged; when every
key parses, the handler is built with the float-keyed converted mapping
(scalar or vector); empty objectives fall back to the fixed default set
whose keys are 0.5, 0.9 and 0.99. -/
theorem summary_objectives_spec :
    (∀ (r : RegState) (spec : MetricSpec),
      spec.type = "summary" → lookupKey r.handlers spec.name = none →
      (∃ p ∈ spec.objectives, parseFloatGo p.1 = none) →
      (register r spec).1 = r ∧ exceptOk (register r spec).2 = false) ∧
    (∀ spec : MetricSpec, spec.type = "summary" →
      (∀ p ∈ spec.objectives, parseFloatGo p.1 ≠ none) →
      validateObjectives spec.objectives = Except.ok (convertObjectives spec.objectives) ∧
      (spec.objectives ≠ [] → spec.labels = [] →
        buildHandler spec = Except.ok
          ⟨spec, Collector.summary spec.name spec.help (convertObjectives spec.objectives)⟩) ∧
      (spec.objectives ≠ [] → validateLabels spec.labels = Except.ok () → spec.labels ≠ [] →
        buildHandler spec = Except.ok
          ⟨spec, Collector.summaryVec spec.name spec.help (convertObjectives spec.objectives)
            spec.labels⟩)) ∧
    (∀ spec : MetricSpec, spec.type = "summary" → spec.objectives = [] → spec.labels = [] →
      buildHandler spec =
        Except.ok ⟨spec, Collector.summary spec.name spec.help defaultObjectives⟩) ∧
    defaultObjectives.map Prod.fst =
      [GoFloat.finite (1/2), GoFloat.finite (9/10), GoFloat.finite (99/100)] := by
  refine ⟨?_, ?_, ?_, rfl⟩
  · intro r spec ht hl hbad
    have hne : spec.objectives ≠ [] := by
      rcases hbad with ⟨p, hp, _⟩
      intro hc
      rw [hc] at hp
      simp at hp
    have hlen : 0 < spec.objectives.length := List.length_pos.mpr hne
    obtain ⟨e, herr⟩ := validateObjectivesAux_err spec.objectives [] hbad
    have hb : buildHandler spec = Except.error e := by
      rw [buildHandler_summary spec ht, if_pos hlen]
      rw [show validateObjectives spec.objectives = Except.error e from herr]
    exact register_fresh_of_build_err hl hb
  · intro spec ht hgood
    have hconv : validateObjectives spec.objectives =
        Except.ok (convertObjectives spec.objectives) :=
      validateObjectives_ok_convert hgood
    refine ⟨hconv, ?_, ?_⟩
    · intro hne hempty
      have hlen : 0 < spec.objectives.length := List.length_pos.mpr hne
      rw [buildHandler_summary spec ht, if_pos hlen, hconv]
      simp [hempty]
    · intro hne hlv hlne
      have hlen : 0 < spec.objectives.length := List.length_pos.mpr hne
      have hempty : spec.labels.isEmpty = false := by
        rcases hsl : spec.labels with _ | ⟨x, xs⟩
        · exact absurd hsl hlne
        · rfl
      rw [buildHandler_summary spec ht, if_pos hlen, hconv]
      simp [hempty, hlv]
  · intro spec ht hobj hlab
    have hlen : ¬ 0 < spec.objectives.length := by
      rw [hobj]
      simp
    rw [buildHandler_summary spec ht, if_neg hlen]
    simp [hlab]

/-- C10 witness: an objectives key that does not parse as a float64 aborts
the registration of a summary spec without touching the state. -/
theorem summary_objectives_spec_witness :
    (register initState specBadObjectives).1 = initState ∧
    exceptOk (register initState specBadObjectives).2 = false :=
  summary_objectives_spec.1 initState specBadObjectives rfl rfl
    ⟨("bad", 2), List.mem_cons_self _ _, rfl⟩
